import Mathlib

/-!
Verification development for the mviedb query-resolution core.

The Go sources are embedded shallowly:
* pure string helpers (`strings.Fields`, `strings.Split`, `strconv.Atoi`, …)
  are modelled as total Lean functions on `String` / `List Char`;
* the hint extractor `extractTvSeasonEpisodeFromQuery` is a fold over the
  whitespace-separated fields of the query, exactly mirroring the loop in the
  source (season/episode markers found by the first regex match of `s(\d+)` /
  `e(\d+)`, the year by `^\d{4}$` plus the range test);
* the response cache `cacheGet` is a function on an association-list cache
  state, with the HTTP exchange abstracted as a passed-in outcome value;
* the interactive `Selector` is a record, and the phases of `HandleQuery`
  (hint extraction, mode transition, remembered-show lookup, search dispatch,
  input interpretation) are separate functions composed the way the source
  composes them.

Machine integers: Go's `int` is 64-bit here; `strconv.Atoi` ignores-error
behaviour (clamping to `MaxInt64` on overflow, 0 on empty input) is modelled
explicitly.  Time is modelled as integer seconds.
-/

namespace Mviedb

/-- 2^63 - 1, Go's MaxInt64: `strconv.Atoi` clamps to this on range error. -/
def maxInt : Nat := 9223372036854775807

/-- Whitespace per Go's `unicode.IsSpace` (the code points accepted by
`strings.Fields` as separators). -/
def goIsSpace (c : Char) : Bool :=
  c.toNat = 0x20 || (0x9 ≤ c.toNat && c.toNat ≤ 0xD) || c.toNat = 0x85 ||
  c.toNat = 0xA0 || c.toNat = 0x1680 || (0x2000 ≤ c.toNat && c.toNat ≤ 0x200A) ||
  c.toNat = 0x2028 || c.toNat = 0x2029 || c.toNat = 0x202F ||
  c.toNat = 0x205F || c.toNat = 0x3000

/-- Accumulator-style splitter behind `goFields` (Go's `strings.Fields`):
maximal runs of non-space characters, in order, no empty fields. -/
def goFieldsAux : List Char → List Char → List (List Char)
  | [], acc => if acc = [] then [] else [acc.reverse]
  | c :: rest, acc =>
    if goIsSpace c then
      if acc = [] then goFieldsAux rest []
      else acc.reverse :: goFieldsAux rest []
    else goFieldsAux rest (c :: acc)

/-- Go's `strings.Fields`. -/
def goFields (s : String) : List String :=
  (goFieldsAux s.data []).map String.mk

/-- Numeric value of a digit string (most significant first). -/
def natOfDigits (l : List Char) : Nat :=
  l.foldl (fun a c => 10 * a + (c.toNat - 48)) 0

/-- Go's `strconv.Atoi` with the error ignored (as the extractor does):
empty or non-digit input gives 0, a digit string gives its value clamped to
`MaxInt64` (on range error Go returns the clamped value alongside the error,
and the extractor keeps the value). -/
def goAtoiChars (l : List Char) : Nat :=
  if l ≠ [] ∧ l.all Char.isDigit then min (natOfDigits l) maxInt else 0

/-- Go's `strings.TrimPrefix(s, "0")`: drops one leading zero if present. -/
def trimZero : List Char → List Char
  | '0' :: r => r
  | r => r

/-- Whether a list of characters starts with a digit. -/
def firstIsDigit : List Char → Bool
  | [] => false
  | c :: _ => c.isDigit

/-- First match of the regex `m(\d+)` in a token: scan left to right for the
marker character immediately followed by a digit, and return the maximal digit
run after it (the regex group) — `none` when there is no match.  This is the
leftmost match that `FindAllStringSubmatch(field, -1)[0][1]` yields. -/
def findMarkerDigits (m : Char) : List Char → Option (List Char)
  | [] => none
  | c :: rest =>
    if c = m ∧ firstIsDigit rest then some (rest.takeWhile Char.isDigit)
    else findMarkerDigits m rest

/-- Season value a token yields: group of the first `s(\d+)` match, one
leading zero trimmed, parsed with the error ignored; 0 when no match. -/
def fieldSeasonOf (tok : String) : Nat :=
  match findMarkerDigits 's' tok.data with
  | none => 0
  | some ds => goAtoiChars (trimZero ds)

/-- Episode value a token yields, from the first `e(\d+)` match. -/
def fieldEpisodeOf (tok : String) : Nat :=
  match findMarkerDigits 'e' tok.data with
  | none => 0
  | some ds => goAtoiChars (trimZero ds)

/-- The regex `^\d{4}$`: exactly four digits. -/
def isYear4 (tok : String) : Bool :=
  tok.data.length = 4 && tok.data.all Char.isDigit

/-- Year value a token yields before the range test (`fieldYear` in the
source): the parsed token when it is exactly four digits, otherwise 0. -/
def fieldYearOf (tok : String) : Nat :=
  if isYear4 tok then goAtoiChars tok.data else 0

/-- State of the extraction loop in `extractTvSeasonEpisodeFromQuery`. -/
structure ExtractState where
  newQuery : List String
  season : Nat
  episode : Nat
  year : Nat
  deriving Repr, DecidableEq

/-- One iteration of the token loop of `extractTvSeasonEpisodeFromQuery`:
sets a still-unset field from a token yielding a non-zero value for it, and
keeps the token in the residual only when all three values are zero.
`yearHigh` is `time.Now().Year() + 1`, passed explicitly. -/
def extractStep (yearHigh : Nat) (st : ExtractState) (field : String) : ExtractState :=
  let fieldSeason := fieldSeasonOf field
  let season := if 0 < fieldSeason ∧ st.season = 0 then fieldSeason else st.season
  let fieldEpisode := fieldEpisodeOf field
  let episode := if 0 < fieldEpisode ∧ st.episode = 0 then fieldEpisode else st.episode
  let fieldYear := fieldYearOf field
  let year :=
    if 1900 ≤ fieldYear ∧ fieldYear ≤ yearHigh ∧ st.year = 0 then fieldYear else st.year
  let newQuery :=
    if fieldSeason = 0 ∧ fieldEpisode = 0 ∧ fieldYear = 0 then st.newQuery ++ [field]
    else st.newQuery
  { newQuery := newQuery, season := season, episode := episode, year := year }

/-- `extractTvSeasonEpisodeFromQuery` from the source, with the wall-clock
upper bound `yearHigh = time.Now().Year() + 1` as an explicit parameter.
Returns `(residual query, season, episode, year)` with 0 for "not found". -/
def extractTvSeasonEpisodeFromQuery (yearHigh : Nat) (query : String) :
    String × Nat × Nat × Nat :=
  let st := (goFields query).foldl (extractStep yearHigh) ⟨[], 0, 0, 0⟩
  (String.intercalate " " st.newQuery, st.season, st.episode, st.year)

/-- First non-zero entry of a list (0 when none): the value a
first-match-wins scan assigns. -/
def firstNonzero (l : List Nat) : Nat :=
  (l.find? (fun x => x ≠ 0)).getD 0

/-- Year value a token yields after the `[1900, yearHigh]` range test — the
year pattern of the specification includes the range. -/
def validYearOf (yearHigh : Nat) (tok : String) : Nat :=
  if 1900 ≤ fieldYearOf tok ∧ fieldYearOf tok ≤ yearHigh then fieldYearOf tok else 0

end Mviedb

namespace Mviedb

theorem firstNonzero_nil : firstNonzero [] = 0 := rfl

theorem firstNonzero_cons (x : Nat) (l : List Nat) :
    firstNonzero (x :: l) = if x = 0 then firstNonzero l else x := by
  by_cases h : x = 0 <;> simp [firstNonzero, List.find?_cons, h]

theorem foldl_extractStep_season (yh : Nat) (l : List String) (st : ExtractState) :
    (l.foldl (extractStep yh) st).season =
      if st.season = 0 then firstNonzero (l.map fieldSeasonOf) else st.season := by
  induction l generalizing st with
  | nil => simp only [List.foldl_nil, List.map_nil, firstNonzero_nil]; split <;> omega
  | cons f rest ih =>
    simp only [List.foldl_cons, List.map_cons, firstNonzero_cons, ih]
    by_cases h1 : st.season = 0 <;> by_cases h2 : fieldSeasonOf f = 0 <;>
      simp [extractStep, h1, h2]

theorem foldl_extractStep_episode (yh : Nat) (l : List String) (st : ExtractState) :
    (l.foldl (extractStep yh) st).episode =
      if st.episode = 0 then firstNonzero (l.map fieldEpisodeOf) else st.episode := by
  induction l generalizing st with
  | nil => simp only [List.foldl_nil, List.map_nil, firstNonzero_nil]; split <;> omega
  | cons f rest ih =>
    simp only [List.foldl_cons, List.map_cons, firstNonzero_cons, ih]
    by_cases h1 : st.episode = 0 <;> by_cases h2 : fieldEpisodeOf f = 0 <;>
      simp [extractStep, h1, h2]

theorem foldl_extractStep_year (yh : Nat) (l : List String) (st : ExtractState) :
    (l.foldl (extractStep yh) st).year =
      if st.year = 0 then firstNonzero (l.map (validYearOf yh)) else st.year := by
  induction l generalizing st with
  | nil => simp only [List.foldl_nil, List.map_nil, firstNonzero_nil]; split <;> omega
  | cons f rest ih =>
    simp only [List.foldl_cons, List.map_cons, firstNonzero_cons, ih]
    by_cases h1 : st.year = 0 <;>
      by_cases h2 : 1900 ≤ fieldYearOf f ∧ fieldYearOf f ≤ yh <;>
      simp [extractStep, validYearOf, h1, h2]

theorem foldl_extractStep_newQuery (yh : Nat) (l : List String) (st : ExtractState) :
    (l.foldl (extractStep yh) st).newQuery =
      st.newQuery ++ l.filter (fun f =>
        decide (fieldSeasonOf f = 0 ∧ fieldEpisodeOf f = 0 ∧ fieldYearOf f = 0)) := by
  induction l generalizing st with
  | nil => simp
  | cons f rest ih =>
    simp only [List.foldl_cons, List.filter_cons, ih]
    by_cases h : fieldSeasonOf f = 0 ∧ fieldEpisodeOf f = 0 ∧ fieldYearOf f = 0 <;>
      simp [extractStep, h]

theorem extract_season_eq (yh : Nat) (q : String) :
    (extractTvSeasonEpisodeFromQuery yh q).2.1 =
      firstNonzero ((goFields q).map fieldSeasonOf) := by
  simpa [extractTvSeasonEpisodeFromQuery] using
    foldl_extractStep_season yh (goFields q) ⟨[], 0, 0, 0⟩

theorem extract_episode_eq (yh : Nat) (q : String) :
    (extractTvSeasonEpisodeFromQuery yh q).2.2.1 =
      firstNonzero ((goFields q).map fieldEpisodeOf) := by
  simpa [extractTvSeasonEpisodeFromQuery] using
    foldl_extractStep_episode yh (goFields q) ⟨[], 0, 0, 0⟩

theorem extract_year_eq (yh : Nat) (q : String) :
    (extractTvSeasonEpisodeFromQuery yh q).2.2.2 =
      firstNonzero ((goFields q).map (validYearOf yh)) := by
  simpa [extractTvSeasonEpisodeFromQuery] using
    foldl_extractStep_year yh (goFields q) ⟨[], 0, 0, 0⟩

theorem extract_residual_eq (yh : Nat) (q : String) :
    (extractTvSeasonEpisodeFromQuery yh q).1 =
      String.intercalate " " ((goFields q).filter (fun f =>
        decide (fieldSeasonOf f = 0 ∧ fieldEpisodeOf f = 0 ∧ fieldYearOf f = 0))) := by
  simpa [extractTvSeasonEpisodeFromQuery] using
    congrArg (String.intercalate " ") (foldl_extractStep_newQuery yh (goFields q) ⟨[], 0, 0, 0⟩)

end Mviedb

namespace Mviedb

/-- Modelled from the claim's words (not from the source): the residual that
keeps exactly the tokens matching none of the three patterns — a season
marker (letter "s" followed by digits), an episode marker (letter "e"
followed by digits), or a bare 4-digit year within `[1900, yearHigh]`. -/
def specResidual (yearHigh : Nat) (query : String) : String :=
  String.intercalate " " ((goFields query).filter (fun f =>
    !(findMarkerDigits 's' f.data).isSome &&
    !(findMarkerDigits 'e' f.data).isSome &&
    !(isYear4 f && decide (1900 ≤ natOfDigits f.data ∧ natOfDigits f.data ≤ yearHigh))))

/-- C1: for every query, each of season, episode and year is assigned from
the first token (in sequence order) that yields a non-zero value for that
field — where the year pattern includes the `[1900, yearHigh]` range test —
and later tokens cannot override an already-set field; this holds for the
three fields independently over the same token sequence, so a token matching
both the season and the episode pattern sets both fields; in particular
`extractTvSeasonEpisodeFromQuery "show name s02e05" = ("show name", 2, 5, 0)`
for every wall-clock bound. -/
theorem extract_first_token_wins :
    (∀ (yearHigh : Nat) (query : String),
      (extractTvSeasonEpisodeFromQuery yearHigh query).2.1 =
        firstNonzero ((goFields query).map fieldSeasonOf) ∧
      (extractTvSeasonEpisodeFromQuery yearHigh query).2.2.1 =
        firstNonzero ((goFields query).map fieldEpisodeOf) ∧
      (extractTvSeasonEpisodeFromQuery yearHigh query).2.2.2 =
        firstNonzero ((goFields query).map (validYearOf yearHigh))) ∧
    (∀ yearHigh : Nat,
      extractTvSeasonEpisodeFromQuery yearHigh "show name s02e05" =
        ("show name", 2, 5, 0)) := by
  refine ⟨fun yh q => ⟨extract_season_eq yh q, extract_episode_eq yh q,
    extract_year_eq yh q⟩, ?_⟩
  intro yh
  have h1 := extract_residual_eq yh "show name s02e05"
  have h2 := extract_season_eq yh "show name s02e05"
  have h3 := extract_episode_eq yh "show name s02e05"
  have h4 := extract_year_eq yh "show name s02e05"
  have hg : goFields "show name s02e05" = ["show", "name", "s02e05"] := rfl
  rw [hg] at h1 h2 h3 h4
  have hy : ["show", "name", "s02e05"].map (validYearOf yh) = [0, 0, 0] := by
    simp [validYearOf, show fieldYearOf "show" = 0 from rfl,
      show fieldYearOf "name" = 0 from rfl, show fieldYearOf "s02e05" = 0 from rfl]
  rw [hy] at h4
  refine Prod.ext_iff.mpr ⟨?_, Prod.ext_iff.mpr ⟨?_, Prod.ext_iff.mpr ⟨?_, ?_⟩⟩⟩
  · exact h1.trans (by decide)
  · exact h2.trans (by decide)
  · exact h3.trans (by decide)
  · exact h4.trans (by decide)

/-- C2 counterexample: on the query `"1234"` (a bare 4-digit token outside
`[1900, yearHigh]` for `yearHigh = 2027`) the source's residual is empty —
the token is removed even though it sets no field — while the residual the
claim describes (keep every token matching none of the three patterns) keeps
it. -/
theorem extract_residual_claim_counterexample :
    (extractTvSeasonEpisodeFromQuery 2027 "1234").2.2.2 = 0 ∧
    (extractTvSeasonEpisodeFromQuery 2027 "1234").1 = "" ∧
    specResidual 2027 "1234" = "1234" ∧
    (extractTvSeasonEpisodeFromQuery 2027 "1234").1 ≠ specResidual 2027 "1234" := by
  refine ⟨rfl, rfl, rfl, ?_⟩
  decide

/-- C2 (amended): the residual keeps, in original order, exactly those
tokens whose three computed values are all zero — the season value (digits
of the first `s(\d+)` match, leading zero stripped), the episode value
(same for `e(\d+)`), and the bare 4-digit value parsed before the
`[1900, yearHigh]` range test.  Consequently a token that contributed to a
field, or whose marker value went unused because the field was already set,
is excluded — but so is a bare 4-digit token outside the year range (it sets
no field yet is removed), and a marker token whose digits parse to zero
(e.g. "s0") is kept. -/
theorem extract_residual_value_filter :
    ∀ (yearHigh : Nat) (query : String),
      (extractTvSeasonEpisodeFromQuery yearHigh query).1 =
        String.intercalate " " ((goFields query).filter (fun f =>
          decide (fieldSeasonOf f = 0 ∧ fieldEpisodeOf f = 0 ∧ fieldYearOf f = 0))) :=
  fun yh q => extract_residual_eq yh q

end Mviedb

namespace Mviedb

/-- A stored cache entry (`cacheResult` in the source): response payload and
creation time, modelled in integer seconds. -/
structure CacheResult where
  body : String
  createdAt : Int
  deriving Repr, DecidableEq

/-- The `MovieDb.cache` map, as an association list (first binding wins). -/
abbrev Cache := List (String × CacheResult)

/-- The expiry sweep at the top of `cacheGet`: every entry whose age
exceeds `retentionSeconds` is deleted.  (The source iterates over a key
slice accidentally padded with empty strings — deleting the absent empty key
is a no-op, so the sweep is exactly this filter.) -/
def sweepCache (retentionSeconds now : Int) (cache : Cache) : Cache :=
  cache.filter (fun kv => !decide (now - kv.2.createdAt > retentionSeconds))

/-- Outcome of the HTTP exchange a cache miss performs, abstracting
`http.NewRequest`, `Client.Do`, the status check and `ioutil.ReadAll`. -/
inductive HttpOutcome where
  | newRequestError (msg : String)
  | transportError (msg : String)
  | httpResponse (statusCode : Int) (status : String) (readBody : Except String String)
  deriving Repr

/-- `(*MovieDb).cacheGet`: sweep expired entries, serve a present key from
the cache, otherwise run the HTTP exchange; on success store
`(key, body, now)`.  Returns the result, the new cache state, and whether
the remote request was attempted (the producer invoked). -/
def cacheGet (retentionSeconds now : Int) (cache : Cache) (key : String)
    (outcome : HttpOutcome) : Except String String × Cache × Bool :=
  let swept := sweepCache retentionSeconds now cache
  match swept.lookup key with
  | some cr => (.ok cr.body, swept, false)
  | none =>
    match outcome with
    | .newRequestError msg => (.error msg, swept, true)
    | .transportError msg => (.error msg, swept, true)
    | .httpResponse statusCode status readBody =>
      if statusCode < 200 ∨ 300 ≤ statusCode then
        (.error ("API request error (" ++ status ++ ")\n"), swept, true)
      else
        match readBody with
        | .error msg => (.error msg, swept, true)
        | .ok responseBody =>
          (.ok responseBody, (key, ⟨responseBody, now⟩) :: swept, true)

/-- The decimal digit characters of `fmt`'s integer formatting. -/
def digitChar (d : Nat) : Char :=
  match d with
  | 0 => '0' | 1 => '1' | 2 => '2' | 3 => '3' | 4 => '4'
  | 5 => '5' | 6 => '6' | 7 => '7' | 8 => '8' | 9 => '9'
  | _ => '*'

/-- Fuel-driven digit expansion (the fuel is an upper bound on the number,
so it never runs out); structural recursion keeps it kernel-reducible. -/
def natDigitsAux : Nat → Nat → List Char
  | 0, _ => []
  | fuel + 1, n =>
    if n < 10 then [digitChar n]
    else natDigitsAux fuel (n / 10) ++ [digitChar (n % 10)]

/-- Decimal digits of a natural number, most significant first — the output
of `fmt.Sprintf("%d", n)` for the non-negative page numbers the program
uses. -/
def natDigits (n : Nat) : List Char :=
  natDigitsAux (n + 1) n

/-- `fmt.Sprintf("%d", n)` for a natural number. -/
def natToString (n : Nat) : String :=
  String.mk (natDigits n)

/-- The cache key of `SearchMovie`: `fmt.Sprintf("search-movie-%s-%d", query, page)`
— query text and page only, the year is not part of the key. -/
def searchMovieKey (query : String) (page : Nat) : String :=
  "search-movie-" ++ query ++ "-" ++ natToString page

/-- The cache key of `SearchTv`: `fmt.Sprintf("search-tv-%s-%d", query, page)`. -/
def searchTvKey (query : String) (page : Nat) : String :=
  "search-tv-" ++ query ++ "-" ++ natToString page

/-- The cache interaction of `SearchMovie`: a `cacheGet` under the
search-movie key.  The `year` argument reaches only the request URL (the
producer), never the key — it is accepted here and ignored exactly as the
key construction ignores it. -/
def searchMovieFetch (query : String) (page year : Nat) (retentionSeconds now : Int)
    (cache : Cache) (outcome : HttpOutcome) : Except String String × Cache × Bool :=
  cacheGet retentionSeconds now cache (searchMovieKey query page) outcome

/-- The cache interaction of `SearchTv`, under the search-tv key. -/
def searchTvFetch (query : String) (page year : Nat) (retentionSeconds : Int) (now : Int)
    (cache : Cache) (outcome : HttpOutcome) : Except String String × Cache × Bool :=
  cacheGet retentionSeconds now cache (searchTvKey query page) outcome

end Mviedb

namespace Mviedb

theorem lookup_filter_none (k : String) (l : Cache) (p : String × CacheResult → Bool)
    (h : l.lookup k = none) : (l.filter p).lookup k = none := by
  induction l with
  | nil => rfl
  | cons a t ih =>
    obtain ⟨ka, va⟩ := a
    rw [List.lookup_cons] at h
    by_cases hk : k == ka
    · rw [hk] at h; exact absurd h (by simp)
    · rw [Bool.of_not_eq_true hk] at h
      simp only [List.filter_cons]
      by_cases hp : p (ka, va)
      · rw [if_pos hp, List.lookup_cons, Bool.of_not_eq_true hk]
        exact ih h
      · rw [if_neg hp]
        exact ih h

theorem sweepCache_cons (ret now : Int) (kv : String × CacheResult) (c : Cache) :
    sweepCache ret now (kv :: c) =
      if now - kv.2.createdAt > ret then sweepCache ret now c
      else kv :: sweepCache ret now c := by
  by_cases h : now - kv.2.createdAt > ret <;> simp [sweepCache, List.filter_cons, h]

theorem sweepCache_lookup_none (ret now : Int) (k : String) (c : Cache)
    (h : c.lookup k = none) : (sweepCache ret now c).lookup k = none :=
  lookup_filter_none k c _ h

/-- A miss with a successful exchange stores the payload at the key. -/
theorem cacheGet_store (ret now1 : Int) (cache : Cache) (key body status : String)
    (code : Int) (h : (sweepCache ret now1 cache).lookup key = none)
    (hc1 : 200 ≤ code) (hc2 : code < 300) :
    cacheGet ret now1 cache key (.httpResponse code status (.ok body)) =
      (.ok body, (key, ⟨body, now1⟩) :: sweepCache ret now1 cache, true) := by
  simp only [cacheGet, h]
  rw [if_neg (by omega)]

/-- A key stored at `now1` is served from the cache at `now2` while its age
is within the retention window, whatever the new exchange would do. -/
theorem cacheGet_hit_head (ret now1 now2 : Int) (key body : String) (rest : Cache)
    (out : HttpOutcome) (hw : now2 - now1 ≤ ret) :
    cacheGet ret now2 ((key, ⟨body, now1⟩) :: rest) key out =
      (.ok body, (key, ⟨body, now1⟩) :: sweepCache ret now2 rest, false) := by
  have hkeep : ¬ (now2 - ((key, (⟨body, now1⟩ : CacheResult)).2.createdAt) > ret) := by
    simp only []
    omega
  simp only [cacheGet, sweepCache_cons, if_neg hkeep, List.lookup_cons, BEq.refl]

/-- A key stored at `now1` is evicted by the sweep at `now2` once its age
exceeds the retention window; the following lookup misses. -/
theorem cacheGet_expired (ret now1 now2 : Int) (key body : String) (rest : Cache)
    (out : HttpOutcome) (hw : ret < now2 - now1) (hr : rest.lookup key = none) :
    (sweepCache ret now2 ((key, ⟨body, now1⟩) :: rest)).lookup key = none ∧
    (cacheGet ret now2 ((key, ⟨body, now1⟩) :: rest) key out).2.2 = true := by
  have hdrop : (now2 - ((key, (⟨body, now1⟩ : CacheResult)).2.createdAt) > ret) := by
    simp only []
    omega
  have hl : (sweepCache ret now2 ((key, ⟨body, now1⟩) :: rest)).lookup key = none := by
    rw [sweepCache_cons, if_pos hdrop]
    exact sweepCache_lookup_none ret now2 key rest hr
  refine ⟨hl, ?_⟩
  cases out with
  | newRequestError m => simp [cacheGet, hl]
  | transportError m => simp [cacheGet, hl]
  | httpResponse c st rb =>
    simp only [cacheGet, hl]
    split
    · rfl
    · cases rb <;> rfl

end Mviedb

namespace Mviedb

/-- C3: for every cache key, a miss followed by a successful exchange stores
the payload; a second fetch with the same key within the retention window of
the first is served the stored payload without attempting the remote request;
a fetch after the window has elapsed finds the entry evicted by the sweep and
attempts the remote request again. -/
theorem cache_fetch_idempotence (ret now1 now2 : Int) (cache : Cache)
    (key body status : String) (code : Int) (out2 out3 : HttpOutcome)
    (h : (sweepCache ret now1 cache).lookup key = none)
    (hc1 : 200 ≤ code) (hc2 : code < 300) :
    (cacheGet ret now1 cache key (.httpResponse code status (.ok body))).1 = .ok body ∧
    (cacheGet ret now1 cache key (.httpResponse code status (.ok body))).2.2 = true ∧
    (now2 - now1 ≤ ret →
      cacheGet ret now2
          (cacheGet ret now1 cache key (.httpResponse code status (.ok body))).2.1 key out2 =
        (.ok body,
         (key, ⟨body, now1⟩) :: sweepCache ret now2 (sweepCache ret now1 cache), false)) ∧
    (ret < now2 - now1 →
      (sweepCache ret now2
          (cacheGet ret now1 cache key (.httpResponse code status (.ok body))).2.1).lookup key
        = none ∧
      (cacheGet ret now2
          (cacheGet ret now1 cache key (.httpResponse code status (.ok body))).2.1
          key out3).2.2 = true) := by
  have hstore := cacheGet_store ret now1 cache key body status code h hc1 hc2
  refine ⟨by rw [hstore], by rw [hstore], ?_, ?_⟩
  · intro hw
    rw [hstore]
    exact cacheGet_hit_head ret now1 now2 key body (sweepCache ret now1 cache) out2 hw
  · intro hw
    rw [hstore]
    exact cacheGet_expired ret now1 now2 key body (sweepCache ret now1 cache) out3 hw h

/-- Witness for C3 at a concrete run: retention 60 s, store at time 0, hit at
time 30 without a remote request, expiry at time 100. -/
theorem cache_fetch_idempotence_witness :
    (cacheGet 60 0 [] "k" (.httpResponse 200 "200 OK" (.ok "payload"))).1 = .ok "payload" ∧
    cacheGet 60 30 (cacheGet 60 0 [] "k"
        (.httpResponse 200 "200 OK" (.ok "payload"))).2.1 "k" (.transportError "down") =
      (.ok "payload", [("k", ⟨"payload", 0⟩)], false) ∧
    (sweepCache 60 100 (cacheGet 60 0 [] "k"
        (.httpResponse 200 "200 OK" (.ok "payload"))).2.1).lookup "k" = none := by
  have h := cache_fetch_idempotence 60 0 30 [] "k" "payload" "200 OK" 200
    (.transportError "down") (.transportError "down") rfl (by omega) (by omega)
  have h100 := cache_fetch_idempotence 60 0 100 [] "k" "payload" "200 OK" 200
    (.transportError "down") (.transportError "down") rfl (by omega) (by omega)
  exact ⟨h.1, (h.2.2.1 (by omega)).trans (by rfl), (h100.2.2.2 (by omega)).1⟩

/-- C7: when the remote exchange fails — request construction error,
transport error, non-2xx status, or a body-read error — `cacheGet` propagates
the error and the cache is exactly the swept cache: nothing is stored for the
failed key. -/
theorem cacheGet_error_propagation (ret now : Int) (cache : Cache) (key : String)
    (h : (sweepCache ret now cache).lookup key = none) :
    (∀ msg, cacheGet ret now cache key (.newRequestError msg) =
      (.error msg, sweepCache ret now cache, true)) ∧
    (∀ msg, cacheGet ret now cache key (.transportError msg) =
      (.error msg, sweepCache ret now cache, true)) ∧
    (∀ (code : Int) (status : String) (rb : Except String String),
      code < 200 ∨ 300 ≤ code →
      cacheGet ret now cache key (.httpResponse code status rb) =
        (.error ("API request error (" ++ status ++ ")\n"), sweepCache ret now cache, true)) ∧
    (∀ (code : Int) (status msg : String), 200 ≤ code → code < 300 →
      cacheGet ret now cache key (.httpResponse code status (.error msg)) =
        (.error msg, sweepCache ret now cache, true)) ∧
    (sweepCache ret now cache).lookup key = none := by
  refine ⟨?_, ?_, ?_, ?_, h⟩
  · intro msg; simp [cacheGet, h]
  · intro msg; simp [cacheGet, h]
  · intro code status rb hcode
    simp only [cacheGet, h]
    rw [if_pos (by omega)]
  · intro code status msg hc1 hc2
    simp only [cacheGet, h]
    rw [if_neg (by omega)]

/-- Witness for C7: a 404 and a transport error at a concrete key leave the
cache empty and propagate the error. -/
theorem cacheGet_error_propagation_witness :
    cacheGet 60 0 [] "k" (.httpResponse 404 "404 Not Found" (.ok "ignored")) =
      (.error "API request error (404 Not Found)\n", [], true) ∧
    cacheGet 60 0 [] "k" (.transportError "timeout") = (.error "timeout", [], true) := by
  have h := cacheGet_error_propagation 60 0 [] "k" rfl
  exact ⟨(h.2.2.1 404 "404 Not Found" (.ok "ignored") (by omega)).trans (by rfl),
    (h.2.1 "timeout").trans (by rfl)⟩

end Mviedb

namespace Mviedb

theorem digitChar_ne_dash (d : Nat) : digitChar d ≠ '-' := by
  unfold digitChar
  split <;> decide

theorem digitChar_toNat (d : Nat) (h : d < 10) : (digitChar d).toNat = 48 + d := by
  interval_cases d <;> rfl

theorem natDigitsAux_eval (fuel : Nat) : ∀ n, n < fuel →
    natOfDigits (natDigitsAux fuel n) = n := by
  induction fuel with
  | zero => omega
  | succ fuel ih =>
    intro n hn
    by_cases h10 : n < 10
    · rw [natDigitsAux, if_pos h10]
      simp only [natOfDigits, List.foldl_cons, List.foldl_nil]
      rw [digitChar_toNat n h10]
      omega
    · rw [natDigitsAux, if_neg h10]
      simp only [natOfDigits, List.foldl_append, List.foldl_cons, List.foldl_nil]
      have hdiv : n / 10 < fuel := by omega
      have := ih (n / 10) hdiv
      simp only [natOfDigits] at this
      rw [this, digitChar_toNat (n % 10) (by omega)]
      omega

theorem natOfDigits_natDigits (n : Nat) : natOfDigits (natDigits n) = n :=
  natDigitsAux_eval (n + 1) n (by omega)

theorem natDigits_inj {m n : Nat} (h : natDigits m = natDigits n) : m = n := by
  have := congrArg natOfDigits h
  rwa [natOfDigits_natDigits, natOfDigits_natDigits] at this

theorem natDigitsAux_no_dash (fuel : Nat) : ∀ n c, c ∈ natDigitsAux fuel n → c ≠ '-' := by
  induction fuel with
  | zero => intro n c hc; simp [natDigitsAux] at hc
  | succ fuel ih =>
    intro n c hc
    by_cases h10 : n < 10
    · rw [natDigitsAux, if_pos h10] at hc
      simp only [List.mem_singleton] at hc
      exact hc ▸ digitChar_ne_dash n
    · rw [natDigitsAux, if_neg h10] at hc
      rcases List.mem_append.mp hc with h | h
      · exact ih (n / 10) c h
      · simp only [List.mem_singleton] at h
        exact h ▸ digitChar_ne_dash (n % 10)

theorem natDigits_no_dash (n : Nat) (c : Char) (hc : c ∈ natDigits n) : c ≠ '-' :=
  natDigitsAux_no_dash (n + 1) n c hc

/-- Splitting at the last separator: when the parts after the separator are
separator-free, the decomposition `r ++ '-' :: t` is unique. -/
theorem sep_append_inj (r1 : List Char) : ∀ (r2 t1 t2 : List Char),
    '-' ∉ r1 → '-' ∉ r2 → r1 ++ '-' :: t1 = r2 ++ '-' :: t2 → r1 = r2 ∧ t1 = t2 := by
  induction r1 with
  | nil =>
    intro r2 t1 t2 _ h2 h
    cases r2 with
    | nil => simpa using h
    | cons b rb =>
      simp only [List.nil_append, List.cons_append, List.cons.injEq] at h
      exact absurd (h.1.symm ▸ List.mem_cons_self b rb) (h.1 ▸ h2)
  | cons a ra ih =>
    intro r2 t1 t2 h1 h2 h
    cases r2 with
    | nil =>
      simp only [List.cons_append, List.nil_append, List.cons.injEq] at h
      exact absurd (h.1 ▸ List.mem_cons_self a ra) (h.1.symm ▸ h1)
    | cons b rb =>
      simp only [List.cons_append, List.cons.injEq] at h
      obtain ⟨hab, hrest⟩ := h
      have h1' : '-' ∉ ra := fun hx => h1 (List.mem_cons_of_mem a hx)
      have h2' : '-' ∉ rb := fun hx => h2 (List.mem_cons_of_mem b hx)
      obtain ⟨hr, ht⟩ := ih rb t1 t2 h1' h2' hrest
      exact ⟨by rw [hab, hr], ht⟩

/-- Injectivity of the `"<op>-" ++ query ++ "-" ++ page` key shape. -/
theorem key_shape_inj (opTag q1 q2 : String) (p1 p2 : Nat)
    (h : opTag ++ q1 ++ "-" ++ natToString p1 = opTag ++ q2 ++ "-" ++ natToString p2) :
    q1 = q2 ∧ p1 = p2 := by
  have hdata := congrArg String.data h
  have hdash : ("-" : String).data = ['-'] := rfl
  have hmk : ∀ l : List Char, (String.mk l).data = l := fun _ => rfl
  simp only [String.data_append, natToString, hmk, hdash, List.append_assoc,
    List.singleton_append] at hdata
  have hd : q1.data ++ ('-' :: natDigits p1) = q2.data ++ ('-' :: natDigits p2) :=
    List.append_cancel_left hdata
  have hrev := congrArg List.reverse hd
  simp only [List.reverse_append, List.reverse_cons, List.append_assoc,
    List.singleton_append] at hrev
  have hnd1 : '-' ∉ (natDigits p1).reverse := by
    intro hx
    exact natDigits_no_dash p1 '-' (List.mem_reverse.mp hx) rfl
  have hnd2 : '-' ∉ (natDigits p2).reverse := by
    intro hx
    exact natDigits_no_dash p2 '-' (List.mem_reverse.mp hx) rfl
  obtain ⟨hr, ht⟩ := sep_append_inj (natDigits p1).reverse (natDigits p2).reverse
    q1.data.reverse q2.data.reverse hnd1 hnd2 hrev
  refine ⟨String.ext (List.reverse_inj.mp ht), natDigits_inj (List.reverse_inj.mp hr)⟩

end Mviedb

namespace Mviedb

/-- C10: the search cache keys are composed of the operation name, the query
text and the page only.  Two keys of the same operation coincide exactly when
query and page coincide (so within the retention window different pages or
query texts are never served the same cached entry), and a second search with
the same query text and page is served the first call's payload without a
remote request, regardless of the year arguments of either call. -/
theorem search_cache_key_composition :
    (∀ (q1 : String) (p1 : Nat) (q2 : String) (p2 : Nat),
      searchMovieKey q1 p1 = searchMovieKey q2 p2 ↔ q1 = q2 ∧ p1 = p2) ∧
    (∀ (q1 : String) (p1 : Nat) (q2 : String) (p2 : Nat),
      searchTvKey q1 p1 = searchTvKey q2 p2 ↔ q1 = q2 ∧ p1 = p2) ∧
    (∀ (q : String) (p year1 year2 : Nat) (ret now1 now2 : Int) (cache : Cache)
       (body status : String) (code : Int) (out2 : HttpOutcome),
      (sweepCache ret now1 cache).lookup (searchMovieKey q p) = none →
      200 ≤ code → code < 300 → now2 - now1 ≤ ret →
      (searchMovieFetch q p year1 ret now1 cache
          (.httpResponse code status (.ok body))).2.2 = true ∧
      searchMovieFetch q p year2 ret now2
          (searchMovieFetch q p year1 ret now1 cache
            (.httpResponse code status (.ok body))).2.1 out2 =
        (.ok body,
         (searchMovieKey q p, ⟨body, now1⟩) :: sweepCache ret now2 (sweepCache ret now1 cache),
         false)) := by
  refine ⟨?_, ?_, ?_⟩
  · intro q1 p1 q2 p2
    exact ⟨fun h => key_shape_inj "search-movie-" q1 q2 p1 p2 (by
        simpa [searchMovieKey, String.append_assoc] using h),
      fun h => by rw [h.1, h.2]⟩
  · intro q1 p1 q2 p2
    exact ⟨fun h => key_shape_inj "search-tv-" q1 q2 p1 p2 (by
        simpa [searchTvKey, String.append_assoc] using h),
      fun h => by rw [h.1, h.2]⟩
  · intro q p year1 year2 ret now1 now2 cache body status code out2 h hc1 hc2 hw
    have hstore := cacheGet_store ret now1 cache (searchMovieKey q p) body status code h hc1 hc2
    refine ⟨by simp only [searchMovieFetch, hstore], ?_⟩
    simp only [searchMovieFetch, hstore]
    exact cacheGet_hit_head ret now1 now2 (searchMovieKey q p) body
      (sweepCache ret now1 cache) out2 hw

/-- Witness for C10: concrete searches — same query and page but different
years share one entry and the second is served from the cache; different
pages give different keys. -/
theorem search_cache_key_composition_witness :
    searchMovieFetch "star" 1 2004 60 30
        (searchMovieFetch "star" 1 1999 60 0 [] (.httpResponse 200 "200 OK" (.ok "R"))).2.1
        (.transportError "down") =
      (.ok "R", [("search-movie-star-1", ⟨"R", 0⟩)], false) ∧
    searchMovieKey "star" 1 ≠ searchMovieKey "star" 2 ∧
    searchMovieKey "star" 1 ≠ searchMovieKey "wars" 1 := by
  have h := search_cache_key_composition.2.2 "star" 1 1999 2004 60 0 30 [] "R" "200 OK" 200
    (.transportError "down") rfl (by omega) (by omega) (by omega)
  refine ⟨h.2.trans (by rfl), ?_, ?_⟩
  · intro hk
    have := (search_cache_key_composition.1 "star" 1 "star" 2).mp hk
    omega
  · intro hk
    have := (search_cache_key_composition.1 "star" 1 "wars" 1).mp hk
    simp at this

end Mviedb

namespace Mviedb

/-- ASCII alphanumeric — the regex class `[a-zA-Z0-9]` of `queryReg` /
`wordReg`. -/
def isAlnum (c : Char) : Bool :=
  (97 ≤ c.toNat && c.toNat ≤ 122) || (65 ≤ c.toNat && c.toNat ≤ 90) ||
  (48 ≤ c.toNat && c.toNat ≤ 57)

/-- Single pass behind `collapseRuns`; the flag records whether the scan is
inside a non-alphanumeric run whose replacement space was already emitted. -/
def collapseAux : Bool → List Char → List Char
  | _, [] => []
  | inRun, c :: rest =>
    if isAlnum c then c :: collapseAux false rest
    else if inRun then collapseAux true rest
    else ' ' :: collapseAux true rest

/-- `queryReg.ReplaceAllString(s, " ")`: every maximal run of
non-alphanumeric characters becomes a single space. -/
def collapseRuns (l : List Char) : List Char :=
  collapseAux false l

/-- `strings.ToLower` restricted to ASCII — after `collapseRuns` only ASCII
alphanumerics and spaces remain, on which Go's Unicode lowering agrees. -/
def goToLower (c : Char) : Char :=
  if 65 ≤ c.toNat ∧ c.toNat ≤ 90 then Char.ofNat (c.toNat + 32) else c

/-- `validSingleCharTokens` from the source. -/
def validSingleCharTokens : List String :=
  ["a", "i", "0", "1", "2", "3", "4", "5", "6", "7", "8", "9"]

/-- `isQueryToken`: not a stop word, and not a disqualified single-character
token. -/
def isQueryToken (token : String) (stopWords : List String) : Bool :=
  !stopWords.contains token &&
  !(token.data.length == 1 && !validSingleCharTokens.contains token)

/-- `buildQueryTokens`: collapse non-alphanumerics to spaces, lowercase,
split into fields, keep the query tokens. -/
def buildQueryTokens (movieStr : String) (stopWords : List String) : List String :=
  let cleaned := collapseRuns movieStr.data
  let lower := cleaned.map goToLower
  ((goFieldsAux lower []).map String.mk).filter (fun w => isQueryToken w stopWords)

/-- Byte-order comparison of strings (Go's `<=` on `string`), as code-point
lexicographic order on the character lists — identical to UTF-8 byte order. -/
def charListLe : List Char → List Char → Bool
  | [], _ => true
  | _ :: _, [] => false
  | a :: as, b :: bs =>
    if a.toNat = b.toNat then charListLe as bs else decide (a.toNat < b.toNat)

/-- Go string `<=`. -/
def strLe (a b : String) : Bool :=
  charListLe a.data b.data

/-- `sort.Strings`: an arbitrary comparison sort; modelled as insertion sort
(the contract is only sortedness plus permutation). -/
def sortStrings (l : List String) : List String :=
  List.insertionSort (fun a b => strLe a b = true) l

/-- The adjacent-duplicate scan of `sortUniq` after its first element:
`words[i]` is kept exactly when it differs from `words[i-1]`. -/
def dedupPairs (prev : String) : List String → List String
  | [] => []
  | y :: rest => if y = prev then dedupPairs y rest else y :: dedupPairs y rest

/-- `sortUniq`'s dedup loop: the first element is always kept. -/
def dedupAdj : List String → List String
  | [] => []
  | x :: rest => x :: dedupPairs x rest

/-- `sortUniq`: sort, then drop adjacent duplicates. -/
def sortUniq (words : List String) : List String :=
  dedupAdj (sortStrings words)

/-- `sort.SearchStrings(b, el)`: the stdlib binary search's documented
result — the least index `i` with `el <= b[i]` — for the sorted inputs the
program passes (every call site passes a `sortUniq` output). -/
def searchStrings (b : List String) (el : String) : Nat :=
  b.findIdx (fun x => strLe el x)

/-- `sortedIntersect`: keep the elements of `a` found in the sorted `b` by
binary search. -/
def sortedIntersect (a b : List String) : List String :=
  a.filter (fun el => b[searchStrings b el]? == some el)

/-- Go's `filepath.Ext`, scanning the reversed path: stop at a path
separator, return from the last dot of the final element. -/
def extAux : List Char → List Char → List Char
  | [], _ => []
  | c :: rest, acc =>
    if c = '/' then []
    else if c = '.' then c :: acc
    else extAux rest (c :: acc)

/-- `filepath.Ext`. -/
def goExt (p : String) : String :=
  String.mk (extAux p.data.reverse [])

/-- Go's `filepath.Base` (for the slash-separated paths this program
builds): empty path gives ".", a path of separators gives "/", otherwise the
last element with trailing separators stripped. -/
def goBase (p : String) : String :=
  if p = "" then "."
  else
    let r := p.data.reverse.dropWhile (fun c => c == '/')
    if r = [] then "/"
    else String.mk (r.takeWhile (fun c => c != '/')).reverse

/-- `fNameSansExtension`: strip the extension, then take the base name. -/
def fNameSansExtension (fPath : String) : String :=
  let ext := goExt fPath
  let name := String.mk (fPath.data.take (fPath.data.length - ext.data.length))
  goBase name

/-- Go's `filepath.Dir` for the cleaned paths the program passes (absolute
paths produced by `filepath.Abs`); `filepath.Abs` of such a directory is the
identity, so `commonDirWords`' `Abs(Dir(moviePath))` is exactly this. -/
def goDir (p : String) : String :=
  let r := p.data.reverse.dropWhile (fun c => c != '/')
  match r with
  | [] => "."
  | _ :: rest => if rest = [] then "/" else String.mk rest.reverse

/-- Go's `strings.HasPrefix` on character lists. -/
def hasPreChars : List Char → List Char → Bool
  | [], _ => true
  | _ :: _, [] => false
  | a :: p, b :: s => a == b && hasPreChars p s

/-- `strings.HasPrefix(s, pat)`. -/
def goHasPre (pat s : String) : Bool :=
  hasPreChars pat.data s.data

/-- The peer-intersection loop of `commonDirWords`, with its early return on
an empty running intersection. -/
def intersectLoop (stopWords : List String) (common : List String) :
    List String → List String
  | [] => common
  | p :: rest =>
    let b := sortUniq (buildQueryTokens p stopWords)
    let c := sortedIntersect common b
    if c = [] then c else intersectLoop stopWords c rest

/-- `commonDirWords`: tokens of the target's extension-stripped base name
intersected with the tokens of every file of `movieList` whose path has the
target's directory as a string prefix, re-projected onto the target's
original token order.  (`filepath.Abs` cannot fail on the absolute inputs
the program passes, so the error return is dropped.) -/
def commonDirWords (moviePath : String) (movieList : List String)
    (stopWords : List String) : List String :=
  let name := fNameSansExtension moviePath
  let dir := goDir moviePath
  let peers := (movieList.filter (fun p => goHasPre dir p)).map
    (fun p => fNameSansExtension p)
  let originalQueryTokens := buildQueryTokens name stopWords
  let common := intersectLoop stopWords (sortUniq originalQueryTokens) peers
  originalQueryTokens.filter (fun el => common.contains el)

/-- Modelled from the claim's words (not from the source): the same
computation but with the peers restricted to files residing in the same
directory as the target, as the claim describes. -/
def specCommonDirWords (moviePath : String) (movieList : List String)
    (stopWords : List String) : List String :=
  let name := fNameSansExtension moviePath
  let dir := goDir moviePath
  let peers := (movieList.filter (fun p => goDir p == dir)).map
    (fun p => fNameSansExtension p)
  let originalQueryTokens := buildQueryTokens name stopWords
  originalQueryTokens.filter (fun t =>
    decide (∀ p ∈ peers, t ∈ buildQueryTokens p stopWords))

end Mviedb

namespace Mviedb

theorem charToNat_inj {a b : Char} (h : a.toNat = b.toNat) : a = b :=
  Char.ext (UInt32.ext h)

theorem charListLe_refl : ∀ l, charListLe l l = true
  | [] => rfl
  | _ :: rest => by simp [charListLe, charListLe_refl rest]

theorem charListLe_total : ∀ a b, charListLe a b = true ∨ charListLe b a = true := by
  intro a
  induction a with
  | nil => intro b; left; rfl
  | cons x xs ih =>
    intro b
    cases b with
    | nil => right; rfl
    | cons y ys =>
      by_cases h : x.toNat = y.toNat
      · rcases ih ys with h1 | h1
        · left; simp [charListLe, h, h1]
        · right; simp [charListLe, h.symm, h1]
      · by_cases hlt : x.toNat < y.toNat
        · left; simp [charListLe, h, hlt]
        · right
          simp only [charListLe]
          rw [if_neg (fun hy => h hy.symm)]
          simp; omega

theorem charListLe_trans : ∀ a b c, charListLe a b = true → charListLe b c = true →
    charListLe a c = true := by
  intro a
  induction a with
  | nil => intro b c _ _; rfl
  | cons x xs ih =>
    intro b c hab hbc
    cases b with
    | nil => simp [charListLe] at hab
    | cons y ys =>
      cases c with
      | nil => simp [charListLe] at hbc
      | cons z zs =>
        simp only [charListLe] at hab hbc ⊢
        by_cases h1 : x.toNat = y.toNat <;> by_cases h2 : y.toNat = z.toNat
        · rw [if_pos h1] at hab; rw [if_pos h2] at hbc
          rw [if_pos (h1.trans h2)]
          exact ih ys zs hab hbc
        · rw [if_pos h1] at hab; rw [if_neg h2] at hbc
          simp only [decide_eq_true_eq] at hbc
          rw [if_neg (by omega)]
          simp; omega
        · rw [if_neg h1] at hab; rw [if_pos h2] at hbc
          simp only [decide_eq_true_eq] at hab
          rw [if_neg (by omega)]
          simp; omega
        · rw [if_neg h1] at hab; rw [if_neg h2] at hbc
          simp only [decide_eq_true_eq] at hab hbc
          rw [if_neg (by omega)]
          simp; omega

theorem charListLe_antisymm : ∀ a b, charListLe a b = true → charListLe b a = true →
    a = b := by
  intro a
  induction a with
  | nil => intro b _ hba; cases b with
    | nil => rfl
    | cons y ys => simp [charListLe] at hba
  | cons x xs ih =>
    intro b hab hba
    cases b with
    | nil => simp [charListLe] at hab
    | cons y ys =>
      simp only [charListLe] at hab hba
      by_cases h : x.toNat = y.toNat
      · rw [if_pos h] at hab
        rw [if_pos h.symm] at hba
        rw [charToNat_inj h, ih ys hab hba]
      · rw [if_neg h] at hab
        rw [if_neg (fun hy => h hy.symm)] at hba
        simp only [decide_eq_true_eq] at hab hba
        omega

theorem strLe_refl (a : String) : strLe a a = true :=
  charListLe_refl a.data

theorem strLe_antisymm {a b : String} (hab : strLe a b = true) (hba : strLe b a = true) :
    a = b :=
  String.ext (charListLe_antisymm a.data b.data hab hba)

instance strLeTotal : IsTotal String (fun a b => strLe a b = true) :=
  ⟨fun a b => charListLe_total a.data b.data⟩

instance strLeTrans : IsTrans String (fun a b => strLe a b = true) :=
  ⟨fun a b c => charListLe_trans a.data b.data c.data⟩

theorem sortStrings_sorted (l : List String) :
    (sortStrings l).Pairwise (fun a b => strLe a b = true) :=
  List.sorted_insertionSort _ l

theorem mem_sortStrings {x : String} {l : List String} : x ∈ sortStrings l ↔ x ∈ l :=
  (List.perm_insertionSort _ l).mem_iff

end Mviedb

namespace Mviedb

theorem dedupPairs_sublist : ∀ (rest : List String) (prev : String),
    (dedupPairs prev rest).Sublist rest := by
  intro rest
  induction rest with
  | nil => intro prev; exact List.Sublist.slnil
  | cons y r ih =>
    intro prev
    unfold dedupPairs
    by_cases h : y = prev
    · rw [if_pos h]
      exact (ih y).cons y
    · rw [if_neg h]
      exact (ih y).cons₂ y

theorem mem_dedupPairs_of_mem : ∀ (rest : List String) (prev z : String), z ∈ rest →
    z = prev ∨ z ∈ dedupPairs prev rest := by
  intro rest
  induction rest with
  | nil => intro prev z hz; simp at hz
  | cons y r ih =>
    intro prev z hz
    unfold dedupPairs
    have hzy : z = y ∨ z ∈ r ∨ z ∈ dedupPairs y r := by
      rcases List.mem_cons.mp hz with h | h
      · exact .inl h
      · rcases ih y z h with h1 | h1
        · exact .inl h1
        · exact .inr (.inr h1)
    by_cases hy : y = prev
    · rw [if_pos hy]
      rcases hzy with h | h | h
      · exact .inl (h.trans hy)
      · rcases ih y z h with h1 | h1
        · exact .inl (h1.trans hy)
        · exact .inr h1
      · exact .inr h
    · rw [if_neg hy]
      rcases hzy with h | h | h
      · exact .inr (h ▸ List.mem_cons_self y (dedupPairs y r))
      · rcases ih y z h with h1 | h1
        · exact .inr (h1 ▸ List.mem_cons_self y (dedupPairs y r))
        · exact .inr (List.mem_cons_of_mem y h1)
      · exact .inr (List.mem_cons_of_mem y h)

end Mviedb

namespace Mviedb

theorem dedupAdj_sublist (l : List String) : (dedupAdj l).Sublist l := by
  cases l with
  | nil => exact List.Sublist.slnil
  | cons x rest => exact (dedupPairs_sublist rest x).cons₂ x

theorem mem_dedupAdj {z : String} {l : List String} : z ∈ dedupAdj l ↔ z ∈ l := by
  constructor
  · exact fun h => (dedupAdj_sublist l).mem h
  · intro h
    cases l with
    | nil => simp at h
    | cons x rest =>
      unfold dedupAdj
      rcases List.mem_cons.mp h with h1 | h1
      · exact h1 ▸ List.mem_cons_self z _
      · rcases mem_dedupPairs_of_mem rest x z h1 with h2 | h2
        · exact h2 ▸ List.mem_cons_self x _
        · exact List.mem_cons_of_mem x h2

theorem mem_sortUniq {z : String} {l : List String} : z ∈ sortUniq l ↔ z ∈ l := by
  unfold sortUniq
  rw [mem_dedupAdj, mem_sortStrings]

theorem sortUniq_sorted (l : List String) :
    (sortUniq l).Pairwise (fun a b => strLe a b = true) :=
  List.Pairwise.sublist (dedupAdj_sublist (sortStrings l)) (sortStrings_sorted l)

theorem searchStrings_found_iff (el : String) : ∀ (b : List String),
    b.Pairwise (fun x y => strLe x y = true) →
    (b[searchStrings b el]? = some el ↔ el ∈ b) := by
  intro b
  induction b with
  | nil => intro _; simp [searchStrings]
  | cons x rest ih =>
    intro hpw
    rw [List.pairwise_cons] at hpw
    obtain ⟨hx, hrest⟩ := hpw
    by_cases hle : strLe el x = true
    · have hidx : searchStrings (x :: rest) el = 0 := by
        simp [searchStrings, List.findIdx_cons, hle]
      rw [hidx]
      simp only [List.getElem?_cons_zero, Option.some.injEq]
      constructor
      · intro h; exact h ▸ List.mem_cons_self x rest
      · intro h
        rcases List.mem_cons.mp h with h | h
        · exact h.symm
        · exact strLe_antisymm (hx el h) hle
    · have hidx : searchStrings (x :: rest) el = searchStrings rest el + 1 := by
        simp [searchStrings, List.findIdx_cons, hle]
      rw [hidx, List.getElem?_cons_succ, ih hrest]
      constructor
      · exact fun h => List.mem_cons_of_mem x h
      · intro h
        rcases List.mem_cons.mp h with h | h
        · exact absurd (h ▸ strLe_refl el) hle
        · exact h

theorem sortedIntersect_eq_filter (a b : List String)
    (hb : b.Pairwise (fun x y => strLe x y = true)) :
    sortedIntersect a b = a.filter (fun el => decide (el ∈ b)) := by
  unfold sortedIntersect
  apply List.filter_congr
  intro x _
  rw [Bool.eq_iff_iff]
  simp only [beq_iff_eq, decide_eq_true_eq]
  exact searchStrings_found_iff x b hb

end Mviedb

namespace Mviedb

theorem intersectLoop_eq (stopWords : List String) :
    ∀ (peers common : List String),
    intersectLoop stopWords common peers =
      common.filter (fun t =>
        decide (∀ p ∈ peers, t ∈ buildQueryTokens p stopWords)) := by
  intro peers
  induction peers with
  | nil =>
    intro common
    simp [intersectLoop]
  | cons p rest ih =>
    intro common
    unfold intersectLoop
    dsimp only
    rw [sortedIntersect_eq_filter common _ (sortUniq_sorted (buildQueryTokens p stopWords))]
    have hmem : ∀ t : String,
        decide (t ∈ sortUniq (buildQueryTokens p stopWords)) =
          decide (t ∈ buildQueryTokens p stopWords) :=
      fun t => decide_eq_decide.mpr mem_sortUniq
    simp only [hmem]
    by_cases hc :
      common.filter (fun t => decide (t ∈ buildQueryTokens p stopWords)) = []
    · rw [if_pos hc, hc]
      symm
      rw [List.filter_eq_nil_iff]
      have hc' := List.filter_eq_nil_iff.mp hc
      intro a ha hdec
      rw [decide_eq_true_eq] at hdec
      exact hc' a ha (by simp [hdec p (List.mem_cons_self p rest)])
    · rw [if_neg hc, ih]
      rw [List.filter_filter]
      apply List.filter_congr
      intro x _
      rw [Bool.eq_iff_iff]
      simp only [Bool.and_eq_true, decide_eq_true_eq, List.forall_mem_cons]
      tauto

end Mviedb

namespace Mviedb

theorem commonDirWords_eq (moviePath : String) (movieList stopWords : List String) :
    commonDirWords moviePath movieList stopWords =
      (buildQueryTokens (fNameSansExtension moviePath) stopWords).filter (fun t =>
        decide (∀ p ∈ movieList.filter (fun p => goHasPre (goDir moviePath) p),
          t ∈ buildQueryTokens (fNameSansExtension p) stopWords)) := by
  unfold commonDirWords
  dsimp only
  rw [intersectLoop_eq]
  apply List.filter_congr
  intro x hx
  rw [Bool.eq_iff_iff]
  constructor
  · intro h
    have hmemf := List.elem_iff.mp h
    rw [List.mem_filter] at hmemf
    obtain ⟨_, hpred⟩ := hmemf
    rw [decide_eq_true_eq] at hpred
    rw [decide_eq_true_eq]
    intro p hp
    exact hpred _ (List.mem_map_of_mem _ hp)
  · intro h
    apply List.elem_iff.mpr
    rw [List.mem_filter]
    refine ⟨mem_sortUniq.mpr hx, ?_⟩
    rw [decide_eq_true_eq] at h
    rw [decide_eq_true_eq]
    intro q hq
    obtain ⟨p, hp, rfl⟩ := List.mem_map.mp hq
    exact h p hp

end Mviedb

namespace Mviedb

/-- C4 (amended): `commonDirWords` returns the target's tokens (from its
extension-stripped base name) restricted to those present in the token set
of every file of the list whose path has the target's directory as a string
prefix — not only files residing in the same directory, but also files in
subdirectories (and in sibling directories whose name extends the prefix) —
re-projected onto the target's original token order; and it returns empty
whenever some such peer shares no token with the target. -/
theorem commonDirWords_intersection :
    (∀ (moviePath : String) (movieList stopWords : List String),
      commonDirWords moviePath movieList stopWords =
        (buildQueryTokens (fNameSansExtension moviePath) stopWords).filter (fun t =>
          decide (∀ p ∈ movieList.filter (fun p => goHasPre (goDir moviePath) p),
            t ∈ buildQueryTokens (fNameSansExtension p) stopWords))) ∧
    (∀ (moviePath : String) (movieList stopWords : List String) (p : String),
      p ∈ movieList → goHasPre (goDir moviePath) p = true →
      (∀ t ∈ buildQueryTokens (fNameSansExtension moviePath) stopWords,
        t ∉ buildQueryTokens (fNameSansExtension p) stopWords) →
      commonDirWords moviePath movieList stopWords = []) := by
  refine ⟨commonDirWords_eq, ?_⟩
  intro moviePath movieList stopWords p hp hpre hdisj
  rw [commonDirWords_eq, List.filter_eq_nil_iff]
  intro t ht hdec
  rw [decide_eq_true_eq] at hdec
  exact hdisj t ht (hdec p (List.mem_filter.mpr ⟨hp, hpre⟩))

/-- Witness for C4: a shared-directory peer with disjoint tokens forces an
empty result, and a peer sharing one token leaves exactly that token in the
target's order. -/
theorem commonDirWords_intersection_witness :
    commonDirWords "/a/foo bar.mkv" ["/a/other movie.mkv"] [] = [] ∧
    commonDirWords "/b/one two.mkv" ["/b/three one.mkv"] [] = ["one"] := by
  constructor
  · exact commonDirWords_intersection.2 "/a/foo bar.mkv" ["/a/other movie.mkv"] []
      "/a/other movie.mkv" (by decide) (by decide) (by decide)
  · exact (commonDirWords_intersection.1 "/b/one two.mkv" ["/b/three one.mkv"] []).trans
      (by decide)

/-- C4 counterexample: the peer selection is a string-prefix test on the
target's directory, not a same-directory test.  `/a/sub/baz qux.mkv` resides
in `/a/sub`, not in the target's directory `/a`, yet the source intersects
with it (emptying the result), while the claim's same-directory reading
keeps the target's tokens. -/
theorem commonDirWords_same_dir_counterexample :
    commonDirWords "/a/foo bar.mkv" ["/a/sub/baz qux.mkv"] [] = [] ∧
    goDir "/a/sub/baz qux.mkv" ≠ goDir "/a/foo bar.mkv" ∧
    specCommonDirWords "/a/foo bar.mkv" ["/a/sub/baz qux.mkv"] [] = ["foo", "bar"] ∧
    commonDirWords "/a/foo bar.mkv" ["/a/sub/baz qux.mkv"] [] ≠
      specCommonDirWords "/a/foo bar.mkv" ["/a/sub/baz qux.mkv"] [] := by
  exact ⟨by decide, by decide, by decide, by decide⟩

end Mviedb

namespace Mviedb

/-- Go's `strings.Split(s, "-")` on character lists: never empty — splitting
the empty string gives `[""]`. -/
def splitDashData : List Char → List (List Char)
  | [] => [[]]
  | c :: rest =>
    if c = '-' then [] :: splitDashData rest
    else
      match splitDashData rest with
      | [] => [[c]]
      | h :: t => (c :: h) :: t

/-- `strings.Split(s, "-")`. -/
def goSplitDash (s : String) : List String :=
  (splitDashData s.data).map String.mk

theorem splitDashData_ne_nil (l : List Char) : splitDashData l ≠ [] := by
  cases l with
  | nil => simp [splitDashData]
  | cons c rest =>
    unfold splitDashData
    by_cases h : c = '-'
    · simp [h]
    · rw [if_neg h]
      cases hs : splitDashData rest <;> simp

theorem goSplitDash_ne_nil (s : String) : goSplitDash s ≠ [] := by
  unfold goSplitDash
  intro h
  exact splitDashData_ne_nil s.data (List.map_eq_nil_iff.mp h)

/-- `fmt`'s `%02d` for the non-negative episode and season numbers. -/
def pad2 (n : Nat) : String :=
  if n < 10 then "0" ++ natToString n else natToString n

/-- `Movie`, with the fields the engine reads (the remaining JSON fields
never influence behaviour). -/
structure Movie where
  Id : Int
  Title : String
  ReleaseDate : String
  Overview : String
  deriving Repr, DecidableEq

/-- `Tv`, with the fields the engine reads. -/
structure Tv where
  Id : Int
  Name : String
  FirstAirDate : String
  Overview : String
  deriving Repr, DecidableEq

/-- `TvEpisode`, with the fields the engine reads; `EpisonNumber` keeps the
source's (misspelled) name. -/
structure TvEpisode where
  Id : Int
  Name : String
  AirDate : String
  EpisonNumber : Nat
  SeasonNumber : Nat
  Overview : String
  TvName : String
  SeasonName : String
  FirstAirDate : String
  deriving Repr, DecidableEq

/-- `TvSeason`, with the fields the engine reads. -/
structure TvSeason where
  Id : Int
  Name : String
  AirDate : String
  Episodes : List TvEpisode
  Overview : String
  SeasonNumber : Nat
  TvName : String
  deriving Repr, DecidableEq

/-- `Movie.GetPath`: `"<Title> (<year>)/<Title> (<year>)"`, the year being
the first `"-"`-separated part of the release date.  The indexing
`dateParts[0]` is modelled with an explicit panic branch. -/
def movieGetPath (m : Movie) : Except String String :=
  match goSplitDash m.ReleaseDate with
  | [] => .error "panic: index out of range"
  | year :: _ =>
    .ok (m.Title ++ " (" ++ year ++ ")/" ++ m.Title ++ " (" ++ year ++ ")")

/-- `Tv.GetPath`: the source body is `panic("No path for tv")`. -/
def tvGetPath (_ : Tv) : Except String String :=
  .error "panic: No path for tv"

/-- `TvEpisode.GetPath`:
`"<TvName> (<year>)/<TvName> (<year>) S%02dE%02d"`, the year being the first
`"-"`-separated part of the show's first-air date. -/
def tvEpisodeGetPath (e : TvEpisode) : Except String String :=
  match goSplitDash e.FirstAirDate with
  | [] => .error "panic: index out of range"
  | year :: _ =>
    .ok (e.TvName ++ " (" ++ year ++ ")/" ++ e.TvName ++ " (" ++ year ++ ") S" ++
      pad2 e.SeasonNumber ++ "E" ++ pad2 e.EpisonNumber)

/-- The `Media` interface as a closed variant: the three implementations in
the source. -/
inductive Media where
  | movie (m : Movie)
  | tv (t : Tv)
  | tvEpisode (e : TvEpisode)
  deriving Repr, DecidableEq

/-- `GetId` across the variants. -/
def Media.GetId : Media → Int
  | .movie m => m.Id
  | .tv t => t.Id
  | .tvEpisode e => e.Id

/-- `GetName` across the variants. -/
def Media.GetName : Media → String
  | .movie m => m.Title
  | .tv t => t.Name
  | .tvEpisode e => e.Name

/-- `GetType` across the variants. -/
def Media.GetType : Media → String
  | .movie _ => "movie"
  | .tv _ => "tv"
  | .tvEpisode _ => "tv_episode"

/-- `GetPath` across the variants. -/
def Media.GetPath : Media → Except String String
  | .movie m => movieGetPath m
  | .tv t => tvGetPath t
  | .tvEpisode e => tvEpisodeGetPath e

end Mviedb

namespace Mviedb

/-- C9 counterexample: the Show (`Tv`) variant's `GetPath` panics
("No path for tv") on every value — here at a concrete one — so not all
three `MediaRecord` variants provide a non-panicking destination-path
derivation. -/
theorem media_getpath_tv_panics :
    Media.GetPath (.tv ⟨603, "The Matrix", "1999-03-31", ""⟩) =
      .error "panic: No path for tv" := rfl

/-- C9 (amended): the Movie and Episode variants derive a destination path
without panicking on every value (the date split always yields a first
part), while the Show (`Tv`) variant's `GetPath` is implemented as
`panic("No path for tv")` — it is never invoked by the engine, whose
terminal selections are only movies and episodes. -/
theorem media_getpath_amended :
    (∀ m : Movie, ∃ p, Media.GetPath (.movie m) = .ok p) ∧
    (∀ e : TvEpisode, ∃ p, Media.GetPath (.tvEpisode e) = .ok p) ∧
    (∀ t : Tv, Media.GetPath (.tv t) = .error "panic: No path for tv") := by
  refine ⟨?_, ?_, fun t => rfl⟩
  · intro m
    cases hs : goSplitDash m.ReleaseDate with
    | nil => exact absurd hs (goSplitDash_ne_nil _)
    | cons y rest => exact ⟨_, by simp only [Media.GetPath, movieGetPath, hs]; rfl⟩
  · intro e
    cases hs : goSplitDash e.FirstAirDate with
    | nil => exact absurd hs (goSplitDash_ne_nil _)
    | cons y rest => exact ⟨_, by simp only [Media.GetPath, tvEpisodeGetPath, hs]; rfl⟩

end Mviedb

namespace Mviedb

/-- `SearchMovieResponse`, with the fields the engine reads. -/
structure SearchMovieResponse where
  Results : List Movie
  TotalPages : Nat
  deriving Repr, DecidableEq

/-- `SearchMovieResponse.MediaResults`. -/
def SearchMovieResponse.MediaResults (r : SearchMovieResponse) : List Media :=
  r.Results.map Media.movie

/-- `SearchTvResponse`, with the fields the engine reads. -/
structure SearchTvResponse where
  Results : List Tv
  TotalPages : Nat
  deriving Repr, DecidableEq

/-- `SearchTvResponse.MediaResults`. -/
def SearchTvResponse.MediaResults (r : SearchTvResponse) : List Media :=
  r.Results.map Media.tv

/-- `TvSeason.MediaResults`: the season's episodes as media values. -/
def TvSeason.MediaResults (r : TvSeason) : List Media :=
  r.Episodes.map Media.tvEpisode

/-- `selectorMode`. -/
inductive SelectorMode where
  | movieSelector
  | tvSelector
  | tvSeasonEpisodeSelector
  deriving Repr, DecidableEq

/-- The zero `TvSeason{}` value assigned by the mode setters. -/
def TvSeasonZero : TvSeason :=
  { Id := 0, Name := "", AirDate := "", Episodes := [], Overview := "",
    SeasonNumber := 0, TvName := "" }

/-- The `Selector` state.  The `movieDb`, `inDir`, `reader` and `stopWords`
fields of the source are the I/O collaborators and per-run constants; the
catalog is passed explicitly as an oracle and the reader as explicit input
lines. -/
structure Selector where
  mode : SelectorMode
  tvId : Int
  seasonNumber : Nat
  tvSeason : TvSeason
  query : String
  tvShowSelections : List (String × Int)
  deriving Repr, DecidableEq

/-- The four catalog operations the selector consults, as a functional
oracle over the remote service (each is `GetTv` / `GetTvSeason` /
`SearchMovie` / `SearchTv` after JSON decoding; an `error` covers both a
failed `cacheGet` and a failed unmarshal). -/
structure MovieDbOps where
  getTv : Int → Except String Tv
  getTvSeason : Int → Nat → Except String TvSeason
  searchMovie : String → Nat → Nat → Except String SearchMovieResponse
  searchTv : String → Nat → Nat → Except String SearchTvResponse

/-- `NewSelector`: movie mode, everything zeroed, empty remembered map. -/
def NewSelector : Selector :=
  { mode := .movieSelector, tvId := 0, seasonNumber := 0, tvSeason := TvSeasonZero,
    query := "", tvShowSelections := [] }

/-- `setMovieMode`. -/
def setMovieMode (s : Selector) (query : String) : Selector :=
  { s with
    mode := .movieSelector
    tvId := 0
    seasonNumber := 0
    tvSeason := TvSeasonZero
    query := query }

/-- `setTvMode`. -/
def setTvMode (s : Selector) (query : String) : Selector :=
  { s with
    mode := .tvSelector
    tvId := 0
    seasonNumber := 0
    tvSeason := TvSeasonZero
    query := query }

/-- Map update `s.tvShowSelections[query] = tvId` (lookup-first association
list). -/
def mapSet (m : List (String × Int)) (k : String) (v : Int) : List (String × Int) :=
  (k, v) :: m

/-- The enrichment `(*MovieDb).GetTvSeason` performs after decoding: the
season carries the show's name, and every episode carries the show name,
season name and the show's first-air date. -/
def enrichTvSeason (tv : Tv) (raw : TvSeason) : TvSeason :=
  { raw with
    TvName := tv.Name
    Episodes := raw.Episodes.map (fun ep =>
      { ep with
        TvName := tv.Name
        SeasonName := raw.Name
        FirstAirDate := tv.FirstAirDate }) }

/-- `(*MovieDb).GetTvSeason tv seasonNumber` through the oracle. -/
def getTvSeasonOp (db : MovieDbOps) (tv : Tv) (seasonNumber : Nat) :
    Except String TvSeason :=
  match db.getTvSeason tv.Id seasonNumber with
  | .error e => .error e
  | .ok raw => .ok (enrichTvSeason tv raw)

/-- `setTvSeasonEpisodeMode`: fetch the show and the season; on any failure
return the error with the state untouched; on success bind the mode to the
pair, store the season, and remember `query ↦ tvId` for the run. -/
def setTvSeasonEpisodeMode (db : MovieDbOps) (s : Selector) (tvId : Int)
    (seasonNumber : Nat) (query : String) : Selector × Option String :=
  match db.getTv tvId with
  | .error e => (s, some e)
  | .ok tv =>
    match getTvSeasonOp db tv seasonNumber with
    | .error e => (s, some e)
    | .ok tvSeason =>
      ({ mode := .tvSeasonEpisodeSelector, tvId := tvId, seasonNumber := seasonNumber,
         tvSeason := tvSeason, query := query,
         tvShowSelections := mapSet s.tvShowSelections query tvId }, none)

/-- The mode-transition block at the top of `HandleQuery` (after hint
extraction): movie mode for hint-free queries; movie → tv when a hint
appears; an episode-mode mismatch falls back to tv mode, substituting the
common-directory tokens unless the query was typed manually.  Returns the
new state and the effective `myQuery`. -/
def transitionPhase (s : Selector) (myQuery : String) (season episode : Nat)
    (manual : Bool) (common : List String) : Selector × String :=
  if season = 0 ∧ episode = 0 then (setMovieMode s myQuery, myQuery)
  else if s.mode = .movieSelector then (setTvMode s myQuery, myQuery)
  else if s.mode = .tvSeasonEpisodeSelector ∧
      (s.seasonNumber ≠ season ∨ s.query ≠ myQuery) then
    let myQuery2 := if ¬manual ∧ common ≠ [] then String.intercalate " " common
      else myQuery
    (setTvMode s myQuery2, myQuery2)
  else (s, myQuery)

/-- The remembered-show short-circuit of `HandleQuery`: in tv mode, a query
previously mapped to a show id re-enters episode mode directly (on a fetch
error the message is printed and the state is unchanged). -/
def memoPhase (db : MovieDbOps) (s : Selector) (myQuery : String) (season : Nat) :
    Selector :=
  if s.mode = .tvSelector then
    match s.tvShowSelections.lookup myQuery with
    | some tvId => (setTvSeasonEpisodeMode db s tvId season myQuery).1
    | none => s
  else s

/-- Which remote search the dispatch issued, if any. -/
inductive IssuedSearch where
  | movieSearch (query : String) (page year : Nat)
  | tvSearch (query : String) (page year : Nat)
  deriving Repr, DecidableEq

/-- The search dispatch of `HandleQuery`: movie search in movie mode, show
search in tv mode (both only for a non-empty query; a failed search is
printed and degrades to the zero response), the stored season's episodes in
episode mode, and nothing otherwise.  Returns `(results, totalPages,
issued search)`. -/
def dispatchPhase (db : MovieDbOps) (s : Selector) (myQuery : String)
    (page year : Nat) : List Media × Nat × Option IssuedSearch :=
  if myQuery ≠ "" ∧ s.mode = .movieSelector then
    match db.searchMovie myQuery page year with
    | .ok r => (r.MediaResults, r.TotalPages, some (.movieSearch myQuery page year))
    | .error _ => ([], 0, some (.movieSearch myQuery page year))
  else if myQuery ≠ "" ∧ s.mode = .tvSelector then
    match db.searchTv myQuery page year with
    | .ok r => (r.MediaResults, r.TotalPages, some (.tvSearch myQuery page year))
    | .error _ => ([], 0, some (.tvSearch myQuery page year))
  else if s.mode = .tvSeasonEpisodeSelector then
    (s.tvSeason.MediaResults, 1, none)
  else ([], 0, none)

/-- `defaultSelection`: the extracted episode in episode mode when it is in
range, otherwise 1. -/
def computeDefaultSelection (s : Selector) (episode numResults : Nat) : Nat :=
  if s.mode = .tvSeasonEpisodeSelector ∧ 0 < episode ∧ episode ≤ numResults then episode
  else 1

/-- The regex `^\d+$` (`intReg`). -/
def isIntString (s : String) : Bool :=
  s.data ≠ [] && s.data.all Char.isDigit

/-- `strconv.Atoi` on a digit string with the error observed (the selection
loop checks it): a range error re-prompts. -/
def goAtoiExc (s : String) : Except String Nat :=
  if natOfDigits s.data ≤ maxInt then .ok (natOfDigits s.data)
  else .error "value out of range"

/-- Terminal outcome of one file's resolution. -/
inductive Outcome where
  | quit
  | skipped
  | media (m : Media)
  deriving Repr, DecidableEq

/-- What one iteration of the selection loop does with an input line. -/
inductive StepOutcome where
  | ret (o : Outcome)
  | recurse (query : String) (manual : Bool) (page : Nat)
  | repromptHelp
  | repromptError (msg : String)
  deriving Repr, DecidableEq

/-- Zero `Media` value used for the (guard-protected) list indexing. -/
def defaultMedia : Media :=
  .movie { Id := 0, Title := "", ReleaseDate := "", Overview := "" }

/-- The common numeric-selection block at the bottom of the loop body: in
range it selects (branching from tv mode into episode mode when the season
is known), out of range it re-prompts. -/
def numericSelect (db : MovieDbOps) (s : Selector) (query : String) (manual : Bool)
    (page : Nat) (myQuery : String) (season : Nat) (results : List Media)
    (iSel : Nat) : Selector × StepOutcome :=
  if 1 ≤ iSel ∧ iSel ≤ results.length then
    if s.mode = .tvSelector then
      if 0 < season then
        match setTvSeasonEpisodeMode db s
            ((results.getD (iSel - 1) defaultMedia).GetId) season myQuery with
        | (s2, none) => (s2, .recurse query manual page)
        | (_, some e) => (s, .repromptError ("Invalid tv season selection: " ++ e))
      else (s, .repromptError "Unable to extract season number from query string.")
    else (s, .ret (.media (results.getD (iSel - 1) defaultMedia)))
  else (s, .repromptError "Please select one of the listed options.")

/-- One iteration of the interaction loop of `HandleQuery` (the source lines
consuming one input line): `q` quits, `s` skips, `p` pages with wrap-around,
`h` prints help and re-prompts; empty input selects the default index; a
digit string is parsed (a parse error re-prompts) and selected; any other
text restarts with a manual query. -/
def loopStep (db : MovieDbOps) (s : Selector) (query : String) (manual : Bool)
    (page : Nat) (myQuery : String) (season : Nat) (results : List Media)
    (totalPages defaultSelection : Nat) (selection : String) :
    Selector × StepOutcome :=
  if selection = "q" then (s, .ret .quit)
  else if selection = "s" then (s, .ret .skipped)
  else if selection = "p" then
    if page < totalPages then (s, .recurse query manual (page + 1))
    else (s, .recurse query manual 1)
  else if selection = "h" then (s, .repromptHelp)
  else if selection = "" then
    numericSelect db s query manual page myQuery season results defaultSelection
  else if isIntString selection = true then
    match goAtoiExc selection with
    | .error e => (s, .repromptError ("Invalid selection: " ++ e))
    | .ok iSel => numericSelect db s query manual page myQuery season results iSel
  else (s, .recurse selection true 1)

end Mviedb

namespace Mviedb

/-- A concrete episode for witness runs. -/
def sampleEpisode (n : Nat) : TvEpisode :=
  { Id := Int.ofNat n, Name := "episode", AirDate := "2001-01-08",
    EpisonNumber := n, SeasonNumber := 1, Overview := "", TvName := "",
    SeasonName := "", FirstAirDate := "" }

/-- A concrete five-episode season for witness runs. -/
def sampleSeason : TvSeason :=
  { Id := 10, Name := "Season 1", AirDate := "2001-01-01",
    Episodes := [sampleEpisode 1, sampleEpisode 2, sampleEpisode 3,
      sampleEpisode 4, sampleEpisode 5],
    Overview := "", SeasonNumber := 1, TvName := "" }

/-- A concrete show for witness runs. -/
def sampleTv : Tv :=
  { Id := 42, Name := "Show", FirstAirDate := "2001-01-01", Overview := "" }

/-- A concrete catalog oracle for witness runs: show 42 with one season. -/
def sampleDb : MovieDbOps :=
  { getTv := fun id => if id = 42 then .ok sampleTv else .error "not found"
    getTvSeason := fun id n =>
      if id = 42 ∧ n = 1 then .ok sampleSeason else .error "not found"
    searchMovie := fun _ _ _ => .error "unreachable"
    searchTv := fun _ _ _ => .error "unreachable" }

/-- C5: in tv (Show) mode, when the effective query text is a key of the
run-scoped remembered map and the catalog lookups succeed, the engine enters
episode (ShowEpisode) mode bound to the remembered show id and the extracted
season, stores exactly the fetched (enriched) season, and the dispatch lists
that season's episodes with no search issued. -/
theorem selector_memo_short_circuit (db : MovieDbOps) (s : Selector)
    (myQuery : String) (season page year : Nat) (tvId : Int) (tv : Tv)
    (raw : TvSeason)
    (hmode : s.mode = .tvSelector)
    (hlook : s.tvShowSelections.lookup myQuery = some tvId)
    (htv : db.getTv tvId = .ok tv)
    (hseason : db.getTvSeason tv.Id season = .ok raw) :
    (memoPhase db s myQuery season).mode = .tvSeasonEpisodeSelector ∧
    (memoPhase db s myQuery season).tvId = tvId ∧
    (memoPhase db s myQuery season).seasonNumber = season ∧
    (memoPhase db s myQuery season).tvSeason = enrichTvSeason tv raw ∧
    dispatchPhase db (memoPhase db s myQuery season) myQuery page year =
      ((enrichTvSeason tv raw).MediaResults, 1, none) := by
  have hset : setTvSeasonEpisodeMode db s tvId season myQuery =
      ({ mode := .tvSeasonEpisodeSelector, tvId := tvId, seasonNumber := season,
         tvSeason := enrichTvSeason tv raw, query := myQuery,
         tvShowSelections := mapSet s.tvShowSelections myQuery tvId }, none) := by
    simp only [setTvSeasonEpisodeMode, htv, getTvSeasonOp, hseason]
  have hmemo : memoPhase db s myQuery season =
      { mode := .tvSeasonEpisodeSelector, tvId := tvId, seasonNumber := season,
        tvSeason := enrichTvSeason tv raw, query := myQuery,
        tvShowSelections := mapSet s.tvShowSelections myQuery tvId } := by
    simp only [memoPhase, hmode, hlook, hset]
    rw [if_pos trivial]
  rw [hmemo]
  refine ⟨rfl, rfl, rfl, rfl, ?_⟩
  simp [dispatchPhase]

/-- Witness for C5 at the concrete oracle: a tv-mode state remembering
`"the show" ↦ 42` re-enters episode mode for show 42, season 1, with the
enriched sample season listed and no search issued. -/
theorem selector_memo_short_circuit_witness :
    (memoPhase sampleDb
      { NewSelector with mode := .tvSelector, tvShowSelections := [("the show", 42)] }
      "the show" 1).mode = .tvSeasonEpisodeSelector ∧
    (memoPhase sampleDb
      { NewSelector with mode := .tvSelector, tvShowSelections := [("the show", 42)] }
      "the show" 1).tvId = 42 ∧
    dispatchPhase sampleDb
      (memoPhase sampleDb
        { NewSelector with mode := .tvSelector, tvShowSelections := [("the show", 42)] }
        "the show" 1) "the show" 1 0 =
      ((enrichTvSeason sampleTv sampleSeason).MediaResults, 1, none) := by
  have h := selector_memo_short_circuit sampleDb
    { NewSelector with mode := .tvSelector, tvShowSelections := [("the show", 42)] }
    "the show" 1 1 0 42 sampleTv sampleSeason rfl rfl rfl rfl
  exact ⟨h.1, h.2.1, h.2.2.2.2⟩

end Mviedb

namespace Mviedb

theorem isIntString_ne_commands {sel : String} (h : isIntString sel = true) :
    sel ≠ "q" ∧ sel ≠ "s" ∧ sel ≠ "p" ∧ sel ≠ "h" ∧ sel ≠ "" := by
  refine ⟨?_, ?_, ?_, ?_, ?_⟩ <;> intro hq <;> rw [hq] at h <;> exact absurd h (by decide)

/-- C6: in the interaction loop, the default index is the extracted episode
number in episode mode when it lies within `[1, numResults]` and 1 otherwise
(and always 1 outside episode mode); empty input selects the default index,
terminally outside tv mode; a bare digit-string selection parsing outside
`[1, numResults]` re-prompts with an error (also on out-of-range parse)
without terminating the resolution; and with two pages, `p` on page 1
advances to page 2 and `p` on page 2 wraps back to page 1. -/
theorem interaction_loop_behavior :
    (∀ (s : Selector) (episode numResults : Nat),
      (s.mode = .tvSeasonEpisodeSelector → 0 < episode → episode ≤ numResults →
        computeDefaultSelection s episode numResults = episode) ∧
      (s.mode ≠ .tvSeasonEpisodeSelector →
        computeDefaultSelection s episode numResults = 1) ∧
      (¬(0 < episode ∧ episode ≤ numResults) →
        computeDefaultSelection s episode numResults = 1)) ∧
    (∀ db (s : Selector) query manual page myQuery season (results : List Media)
        totalPages d,
      s.mode ≠ .tvSelector → 1 ≤ d → d ≤ results.length →
      loopStep db s query manual page myQuery season results totalPages d "" =
        (s, .ret (.media (results.getD (d - 1) defaultMedia)))) ∧
    (∀ db (s : Selector) query manual page myQuery season (results : List Media)
        totalPages d sel,
      isIntString sel = true → natOfDigits sel.data ≤ maxInt →
      ¬(1 ≤ natOfDigits sel.data ∧ natOfDigits sel.data ≤ results.length) →
      loopStep db s query manual page myQuery season results totalPages d sel =
        (s, .repromptError "Please select one of the listed options.")) ∧
    (∀ db (s : Selector) query manual page myQuery season (results : List Media)
        totalPages d sel,
      isIntString sel = true → maxInt < natOfDigits sel.data →
      loopStep db s query manual page myQuery season results totalPages d sel =
        (s, .repromptError "Invalid selection: value out of range")) ∧
    (∀ db (s : Selector) query manual myQuery season (results : List Media) d,
      loopStep db s query manual 1 myQuery season results 2 d "p" =
        (s, .recurse query manual 2) ∧
      loopStep db s query manual 2 myQuery season results 2 d "p" =
        (s, .recurse query manual 1)) := by
  refine ⟨?_, ?_, ?_, ?_, ?_⟩
  · intro s episode numResults
    refine ⟨?_, ?_, ?_⟩
    · intro hm h1 h2
      simp [computeDefaultSelection, hm, h1, h2]
    · intro hm
      simp [computeDefaultSelection, hm]
    · intro hr
      rw [computeDefaultSelection, if_neg (by tauto)]
  · intro db s query manual page myQuery season results totalPages d hmode h1 h2
    unfold loopStep numericSelect
    rw [if_neg (by decide), if_neg (by decide), if_neg (by decide), if_neg (by decide),
      if_pos rfl, if_pos ⟨h1, h2⟩, if_neg hmode]
  · intro db s query manual page myQuery season results totalPages d sel hsel hle hr
    obtain ⟨hq, hs, hp, hh, he⟩ := isIntString_ne_commands hsel
    unfold loopStep
    rw [if_neg hq, if_neg hs, if_neg hp, if_neg hh, if_neg he, if_pos hsel,
      goAtoiExc, if_pos hle]
    dsimp only
    unfold numericSelect
    rw [if_neg hr]
  · intro db s query manual page myQuery season results totalPages d sel hsel hgt
    obtain ⟨hq, hs, hp, hh, he⟩ := isIntString_ne_commands hsel
    unfold loopStep
    rw [if_neg hq, if_neg hs, if_neg hp, if_neg hh, if_neg he, if_pos hsel,
      goAtoiExc, if_neg (by omega)]
    rfl
  · intro db s query manual myQuery season results d
    constructor
    · unfold loopStep
      rw [if_neg (by decide), if_neg (by decide), if_pos rfl, if_pos (by omega)]
    · unfold loopStep
      rw [if_neg (by decide), if_neg (by decide), if_pos rfl, if_neg (by omega)]

end Mviedb

namespace Mviedb

/-- A concrete episode-mode selector state for witness runs. -/
def sampleEpState : Selector :=
  { mode := .tvSeasonEpisodeSelector, tvId := 42, seasonNumber := 1,
    tvSeason := sampleSeason, query := "the show",
    tvShowSelections := [("the show", 42)] }

/-- Witness for C6 at a concrete episode-mode state with five episodes and
extracted episode 3: the default is 3; empty input returns episode 3;
`"7"` re-prompts; `p` with two pages advances from page 1 to page 2 and
wraps from page 2 to page 1. -/
theorem interaction_loop_behavior_witness :
    computeDefaultSelection sampleEpState 3 5 = 3 ∧
    loopStep sampleDb sampleEpState "the show s01e03" false 1 "the show" 1
        sampleSeason.MediaResults 1 3 "" =
      (sampleEpState, .ret (.media (.tvEpisode (sampleEpisode 3)))) ∧
    loopStep sampleDb sampleEpState "the show s01e03" false 1 "the show" 1
        sampleSeason.MediaResults 1 3 "7" =
      (sampleEpState, .repromptError "Please select one of the listed options.") ∧
    loopStep sampleDb sampleEpState "the show s01e03" false 1 "the show" 1
        sampleSeason.MediaResults 2 3 "p" =
      (sampleEpState, .recurse "the show s01e03" false 2) ∧
    loopStep sampleDb sampleEpState "the show s01e03" false 2 "the show" 1
        sampleSeason.MediaResults 2 3 "p" =
      (sampleEpState, .recurse "the show s01e03" false 1) := by
  refine ⟨?_, ?_, ?_, ?_, ?_⟩
  · exact (interaction_loop_behavior.1 sampleEpState 3 5).1 rfl (by omega) (by omega)
  · exact (interaction_loop_behavior.2.1 sampleDb sampleEpState "the show s01e03" false 1
      "the show" 1 sampleSeason.MediaResults 1 3 (by decide) (by omega)
      (by decide)).trans (by decide)
  · exact interaction_loop_behavior.2.2.1 sampleDb sampleEpState "the show s01e03" false 1
      "the show" 1 sampleSeason.MediaResults 1 3 "7" (by decide) (by decide) (by decide)
  · exact (interaction_loop_behavior.2.2.2.2 sampleDb sampleEpState "the show s01e03" false
      "the show" 1 sampleSeason.MediaResults 3).1
  · exact (interaction_loop_behavior.2.2.2.2 sampleDb sampleEpState "the show s01e03" false
      "the show" 1 sampleSeason.MediaResults 3).2

end Mviedb

namespace Mviedb

/-- The selector state invariant: outside episode mode the bound show id,
season number and stored season are zero; in episode mode the stored season
is exactly the (enriched) season the catalog returns for the bound
`(tvId, seasonNumber)` pair. -/
def SelectorInv (db : MovieDbOps) (s : Selector) : Prop :=
  (s.mode ≠ .tvSeasonEpisodeSelector →
    s.tvId = 0 ∧ s.seasonNumber = 0 ∧ s.tvSeason = TvSeasonZero) ∧
  (s.mode = .tvSeasonEpisodeSelector →
    ∃ tv, db.getTv s.tvId = .ok tv ∧
      getTvSeasonOp db tv s.seasonNumber = .ok s.tvSeason)

/-- C8: every selector operation preserves the state invariant —
`NewSelector` establishes it, `setMovieMode` and `setTvMode` re-establish it
unconditionally, and `setTvSeasonEpisodeMode` preserves it (the state is
untouched on a fetch error, and on success the stored season is the one
just fetched for the bound pair). -/
theorem selector_invariant_preserved (db : MovieDbOps) :
    SelectorInv db NewSelector ∧
    (∀ s q, SelectorInv db (setMovieMode s q)) ∧
    (∀ s q, SelectorInv db (setTvMode s q)) ∧
    (∀ s tvId n q, SelectorInv db s →
      SelectorInv db (setTvSeasonEpisodeMode db s tvId n q).1) := by
  refine ⟨⟨fun _ => ⟨rfl, rfl, rfl⟩, fun h => absurd h (by decide)⟩,
    fun s q => ⟨fun _ => ⟨rfl, rfl, rfl⟩, fun h => absurd h (by simp [setMovieMode])⟩,
    fun s q => ⟨fun _ => ⟨rfl, rfl, rfl⟩, fun h => absurd h (by simp [setTvMode])⟩, ?_⟩
  intro s tvId n q hinv
  cases htv : db.getTv tvId with
  | error e =>
    simp only [setTvSeasonEpisodeMode, htv]
    exact hinv
  | ok tv =>
    cases hs : getTvSeasonOp db tv n with
    | error e =>
      simp only [setTvSeasonEpisodeMode, htv, hs]
      exact hinv
    | ok tvSeason =>
      simp only [setTvSeasonEpisodeMode, htv, hs]
      exact ⟨fun h => absurd rfl h, fun _ => ⟨tv, htv, hs⟩⟩

/-- Witness for C8: the invariant transported through concrete operations —
a successful entry into episode mode from the initial state, and a reset to
tv mode afterwards. -/
theorem selector_invariant_preserved_witness :
    SelectorInv sampleDb
      (setTvSeasonEpisodeMode sampleDb NewSelector 42 1 "the show").1 ∧
    SelectorInv sampleDb
      (setTvMode (setTvSeasonEpisodeMode sampleDb NewSelector 42 1 "the show").1
        "other") := by
  exact ⟨(selector_invariant_preserved sampleDb).2.2.2 NewSelector 42 1 "the show"
      (selector_invariant_preserved sampleDb).1,
    (selector_invariant_preserved sampleDb).2.2.1 _ "other"⟩

end Mviedb
